import Mathlib

/-!
Verification of the polymorphic serialization core of `src/v1/chat_completion.rs`
(chat-completion request/response data model, OpenAI-style wire format).

The Rust types are shallowly embedded: JSON values are modelled by a mutual
inductive `Json`/`JsonList`/`JsonObj` (an object is a finite sequence of
key-value pairs in emission order), serde `Serialize` implementations become
functions into `Json`, and serde `Deserialize` implementations become functions
`Json → Except String _`.  Rust `f64` numeric payloads are modelled as `Rat`
(no claim under verification depends on float rounding), `i64`/`i32` as `Int`
with explicit range and integrality checks, `usize` as `Nat`.  `BTreeMap` is
modelled as a key-sorted association list built by sorted insertion, with
string keys compared lexicographically by code point (for UTF-8 encoded
strings this coincides with the byte-wise `Ord` used by Rust `String`).
-/

namespace ChatCompletion


mutual

/-- JSON value, mutually with element lists and objects (objects keep their
key-value pairs in emission order). Numbers are carried as exact rationals. -/
inductive Json where
  | null
  | bool (b : Bool)
  | num (q : Rat)
  | str (s : String)
  | arr (xs : JsonList)
  | obj (kvs : JsonObj)
deriving DecidableEq

inductive JsonList where
  | nil
  | cons (hd : Json) (tl : JsonList)
deriving DecidableEq

inductive JsonObj where
  | nil
  | cons (k : String) (v : Json) (tl : JsonObj)
deriving DecidableEq
end

def JsonList.ofList : List Json → JsonList
  | [] => .nil
  | j :: js => .cons j (JsonList.ofList js)

def JsonList.toList : JsonList → List Json
  | .nil => []
  | .cons j js => j :: js.toList

def JsonObj.ofList : List (String × Json) → JsonObj
  | [] => .nil
  | (k, v) :: kvs => .cons k v (JsonObj.ofList kvs)

def JsonObj.toList : JsonObj → List (String × Json)
  | .nil => []
  | .cons k v tl => (k, v) :: tl.toList

/-- First-occurrence lookup of a key in a JSON object, as serde performs when
reading a named field from a buffered map. -/
def JsonObj.lookup (k : String) : JsonObj → Option Json
  | .nil => Option.none
  | .cons k2 v tl => if k = k2 then Option.some v else JsonObj.lookup k tl

/-- Keys of a JSON object in emission order. -/
def JsonObj.keys : JsonObj → List String
  | .nil => []
  | .cons k _ tl => k :: tl.keys

mutual

/-- Nesting depth of a JSON value: scalars have depth 0, an array or object is
one deeper than its deepest child. -/
def Json.depth : Json → Nat
  | .null => 0
  | .bool _ => 0
  | .num _ => 0
  | .str _ => 0
  | .arr xs => 1 + JsonList.depthList xs
  | .obj kvs => 1 + JsonObj.depthObj kvs

def JsonList.depthList : JsonList → Nat
  | .nil => 0
  | .cons j tl => Nat.max j.depth tl.depthList

def JsonObj.depthObj : JsonObj → Nat
  | .nil => 0
  | .cons _ v tl => Nat.max v.depth tl.depthObj
end

/-! ### Rendering to bytes

A deterministic compact printer in the style of `serde_json::to_string`.
Equal `Json` trees render to equal byte strings, which is what the
byte-identity claims below reduce to.  Number formatting is modelled as a
deterministic function of the exact numeric value (the schema encodings the
claims are about emit no numbers). -/

def escapeChar (c : Char) : String :=
  if c = '"' then "\\\""
  else if c = '\\' then "\\\\"
  else if c.toNat < 32 then "\\u" ++ String.mk (Nat.toDigits 16 c.toNat)
  else String.mk [c]

def renderString (s : String) : String :=
  "\"" ++ String.join (s.data.map escapeChar) ++ "\""

def renderNum (q : Rat) : String :=
  if q.den = 1 then toString q.num else toString q

mutual

def Json.render : Json → String
  | .null => "null"
  | .bool b => if b then "true" else "false"
  | .num q => renderNum q
  | .str s => renderString s
  | .arr xs => "[" ++ JsonList.renderList xs ++ "]"
  | .obj kvs => "\x7b" ++ JsonObj.renderObj kvs ++ "\x7d"

def JsonList.renderList : JsonList → String
  | .nil => ""
  | .cons j .nil => j.render
  | .cons j (.cons j2 tl) => j.render ++ "," ++ JsonList.renderList (.cons j2 tl)

def JsonObj.renderObj : JsonObj → String
  | .nil => ""
  | .cons k v .nil => renderString k ++ ":" ++ v.render
  | .cons k v (.cons k2 v2 tl) =>
      renderString k ++ ":" ++ v.render ++ "," ++ JsonObj.renderObj (.cons k2 v2 tl)
end

/-! ### String ordering

Rust `BTreeMap<String, _>` orders keys by the byte-wise `Ord` on UTF-8
strings, which agrees with lexicographic order on code points.  We model it
as a boolean lexicographic comparison on the character list, which the kernel
can evaluate on literals. -/

def lexLt : List Char → List Char → Bool
  | [], [] => false
  | [], _ :: _ => true
  | _ :: _, [] => false
  | a :: as, b :: bs => if a < b then true else if b < a then false else lexLt as bs

def strLt (a b : String) : Bool := lexLt a.data b.data

/-! ### Content union (`Content`, `StructuredContent`, `ImageUrlType`)

Embeds the Rust types of the same names, the hand-written
`Serialize for Content` (a string for `PlainText`, an array for
`Structured`) and the hand-written visitor-based `Deserialize for Content`
(only `visit_str` and `visit_seq` are provided; every other JSON shape hits
the default visitor error built from the `expecting` string).
`StructuredContent` carries serde attributes `tag = "type"` and
`rename_all = "snake_case"`, i.e. it is internally tagged with tags
`"text"` and `"image_url"`. -/

structure ImageUrlType where
  url : String
deriving DecidableEq

inductive StructuredContent where
  | Text (text : String)
  | ImageUrl (image_url : ImageUrlType)
deriving DecidableEq

inductive Content where
  | PlainText (s : String)
  | Structured (blocks : List StructuredContent)
deriving DecidableEq

def ImageUrlType.encode (u : ImageUrlType) : Json :=
  .obj (.cons "url" (.str u.url) .nil)

/-- Wire tag selecting the `StructuredContent` variant (serde internal tag
`type`, snake_case). -/
def StructuredContent.tag : StructuredContent → String
  | .Text _ => "text"
  | .ImageUrl _ => "image_url"

/-- Derived serialization of an internally tagged `StructuredContent`: the tag
field first, then the variant fields. -/
def StructuredContent.encode : StructuredContent → Json
  | .Text t => .obj (.cons "type" (.str "text") (.cons "text" (.str t) .nil))
  | .ImageUrl u => .obj (.cons "type" (.str "image_url") (.cons "image_url" u.encode .nil))

/-- The `expecting` string of the `ContentVisitor` in the source. -/
def contentExpecting : String := "a string or an array of structured content"

def invalidTypeMsg (got expected : String) : String :=
  "invalid type: " ++ got ++ ", expected " ++ expected

def unknownContentVariant (tag : String) : String :=
  "unknown variant `" ++ tag ++ "`, expected `text` or `image_url`"

/-- The serde name of the top-level kind of a JSON value, as used in
`invalid type` error messages. -/
def jsonKindName : Json → String
  | .null => "null"
  | .bool _ => "boolean"
  | .num _ => "number"
  | .str _ => "string"
  | .arr _ => "sequence"
  | .obj _ => "map"

def ImageUrlType.decode (j : Json) : Except String ImageUrlType :=
  match j with
  | .obj kvs =>
    match kvs.lookup "url" with
    | Option.some (.str u) => .ok ⟨u⟩
    | Option.some v => .error (invalidTypeMsg (jsonKindName v) "a string")
    | Option.none => .error "missing field `url`"
  | j => .error (invalidTypeMsg (jsonKindName j) "struct ImageUrlType")

/-- Derived deserialization of the internally tagged `StructuredContent`:
read the `type` tag from the object, then the fields of the selected
variant; a tag outside the recognized set is an unknown-variant failure. -/
def decodeStructuredContent (j : Json) : Except String StructuredContent :=
  match j with
  | .obj kvs =>
    match kvs.lookup "type" with
    | Option.none => .error "missing field `type`"
    | Option.some (.str tag) =>
        if tag = "text" then
          match kvs.lookup "text" with
          | Option.some (.str t) => .ok (.Text t)
          | Option.some v => .error (invalidTypeMsg (jsonKindName v) "a string")
          | Option.none => .error "missing field `text`"
        else if tag = "image_url" then
          match kvs.lookup "image_url" with
          | Option.some v => (ImageUrlType.decode v).map StructuredContent.ImageUrl
          | Option.none => .error "missing field `image_url`"
        else .error (unknownContentVariant tag)
    | Option.some v => .error (invalidTypeMsg (jsonKindName v) "a string")
  | j => .error (invalidTypeMsg (jsonKindName j) "internally tagged enum StructuredContent")

/-- Element-wise decoding of the array form, in original order
(`visit_seq` of the `ContentVisitor`). -/
def decodeBlocks : JsonList → Except String (List StructuredContent)
  | .nil => .ok []
  | .cons j tl =>
    match decodeStructuredContent j with
    | .error e => .error e
    | .ok b =>
      match decodeBlocks tl with
      | .error e => .error e
      | .ok bs => .ok (b :: bs)

/-- The hand-written `Deserialize for Content` (source lines 157-194). -/
def Content.deserialize : Json → Except String Content
  | .str s => .ok (.PlainText s)
  | .arr xs => (decodeBlocks xs).map Content.Structured
  | j => .error (invalidTypeMsg (jsonKindName j) contentExpecting)

/-- The hand-written `Serialize for Content` (source lines 196-212). -/
def Content.serialize : Content → Json
  | .PlainText s => .str s
  | .Structured blocks => .arr (JsonList.ofList (blocks.map StructuredContent.encode))

/-! ### Tool declarations and the tool-choice union

`ToolType`, `Function`, `Tool` and `ToolChoiceType` embed the Rust types of
the same names.  `serialize_tool_choice` embeds the hand-written encoder of
source lines 354-373.  `ToolChoiceType` has only a derived `Deserialize`,
i.e. the serde externally tagged representation: a bare string must match a
variant name (`"None"`, `"Auto"`, `"Any"`, `"ToolChoice"`), and an object
form must be a single-key map whose key is the variant name. -/

inductive ToolType where
  | Function
deriving DecidableEq

structure Function where
  name : String
  description : Option String
  parameters : Json
deriving DecidableEq

structure Tool where
  type : ToolType
  function : Function
deriving DecidableEq

inductive ToolChoiceType where
  | None
  | Auto
  | Any
  | ToolChoice (tool : Tool)
deriving DecidableEq

/-- Emission of one optional struct field under `skip_serializing_if =
"Option::is_none"`: nothing when unset, one key-value pair when set. -/
def optField (name : String) (v : Option Json) : List (String × Json) :=
  match v with
  | Option.none => []
  | Option.some j => [(name, j)]

def ToolType.encode : ToolType → Json
  | .Function => .str "function"

def ToolType.decode (j : Json) : Except String ToolType :=
  match j with
  | .str s =>
      if s = "function" then .ok .Function
      else .error ("unknown variant `" ++ s ++ "`, expected `function`")
  | j => .error (invalidTypeMsg (jsonKindName j) "a string")

/-- Derived serialization of `Function`: `name`, then `description` (skipped
when unset), then `parameters` (an opaque `serde_json::Value`). -/
def Function.encode (f : Function) : Json :=
  .obj (JsonObj.ofList (("name", .str f.name)
    :: optField "description" (f.description.map .str)
    ++ [("parameters", f.parameters)]))

/-- Derived deserialization of one `Option<String>` struct field: an absent
key or a JSON null is `None`; a string is `Some`; anything else fails. -/
def decodeOptString (kvs : JsonObj) (name : String) : Except String (Option String) :=
  match kvs.lookup name with
  | Option.none => .ok Option.none
  | Option.some .null => .ok Option.none
  | Option.some (.str s) => .ok (Option.some s)
  | Option.some v => .error (invalidTypeMsg (jsonKindName v) "a string")

def Function.decode (j : Json) : Except String Function :=
  match j with
  | .obj kvs => do
    let name ← match kvs.lookup "name" with
      | Option.some (.str s) => Except.ok s
      | Option.some v => Except.error (invalidTypeMsg (jsonKindName v) "a string")
      | Option.none => Except.error "missing field `name`"
    let desc ← decodeOptString kvs "description"
    let params ← match kvs.lookup "parameters" with
      | Option.some v => Except.ok v
      | Option.none => Except.error "missing field `parameters`"
    Except.ok ⟨name, desc, params⟩
  | j => .error (invalidTypeMsg (jsonKindName j) "struct Function")

/-- Derived serialization of `Tool`: both fields required, in declaration
order. -/
def Tool.encode (t : Tool) : Json :=
  .obj (.cons "type" (ToolType.encode t.type) (.cons "function" t.function.encode .nil))

def Tool.decode (j : Json) : Except String Tool :=
  match j with
  | .obj kvs => do
    let ty ← match kvs.lookup "type" with
      | Option.some v => ToolType.decode v
      | Option.none => Except.error "missing field `type`"
    let fn ← match kvs.lookup "function" with
      | Option.some v => Function.decode v
      | Option.none => Except.error "missing field `function`"
    Except.ok ⟨ty, fn⟩
  | j => .error (invalidTypeMsg (jsonKindName j) "struct Tool")

/-- The hand-written field encoder `serialize_tool_choice` (source lines
354-373): three bare strings, and for the `ToolChoice` variant a two-key
object holding the type and function of the carried tool with no nested
`tool` key. -/
def serialize_tool_choice : Option ToolChoiceType → Json
  | Option.some .None => .str "none"
  | Option.some .Auto => .str "auto"
  | Option.some .Any => .str "any"
  | Option.some (.ToolChoice tool) =>
      .obj (.cons "type" (ToolType.encode tool.type) (.cons "function" tool.function.encode .nil))
  | Option.none => .null

def unknownToolChoiceVariant (s : String) : String :=
  "unknown variant `" ++ s ++ "`, expected one of `None`, `Auto`, `Any`, `ToolChoice`"

/-- The serde_json error produced when an enum is decoded from a map that
does not have exactly one entry. -/
def mapSingleKeyMsg : String := "invalid value: map, expected map with a single key"

/-- Derived (externally tagged) deserialization of `ToolChoiceType`: the
only `Deserialize` implementation the source has for this type. -/
def decodeToolChoiceType (j : Json) : Except String ToolChoiceType :=
  match j with
  | .str s =>
      if s = "None" then .ok .None
      else if s = "Auto" then .ok .Auto
      else if s = "Any" then .ok .Any
      else if s = "ToolChoice" then
        .error (invalidTypeMsg "unit variant" "struct variant ToolChoiceType.ToolChoice")
      else .error (unknownToolChoiceVariant s)
  | .obj (.cons k v .nil) =>
      if k = "ToolChoice" then
        match v with
        | .obj kvs =>
          (match kvs.lookup "tool" with
           | Option.some tv => (Tool.decode tv).map ToolChoiceType.ToolChoice
           | Option.none => .error "missing field `tool`")
        | v => .error (invalidTypeMsg (jsonKindName v) "struct variant ToolChoiceType.ToolChoice")
      else if k = "None" then
        match v with
        | .null => .ok .None
        | v => .error (invalidTypeMsg (jsonKindName v) "unit")
      else if k = "Auto" then
        match v with
        | .null => .ok .Auto
        | v => .error (invalidTypeMsg (jsonKindName v) "unit")
      else if k = "Any" then
        match v with
        | .null => .ok .Any
        | v => .error (invalidTypeMsg (jsonKindName v) "unit")
      else .error (unknownToolChoiceVariant k)
  | .obj _ => .error mapSingleKeyMsg
  | j => .error (invalidTypeMsg (jsonKindName j) "enum ToolChoiceType")

/-! ### Recursive JSON-Schema-like type (`JSONSchemaType`, `JSONSchemaDefine`)

`JSONSchemaDefine` embeds the Rust struct of the same name: every field is
optional, `schema_type` is renamed to `type` on the wire and is the only
field without `skip_serializing_if`, and `properties` is a
`BTreeMap<String, Box<JSONSchemaDefine>>`, modelled as a key-sorted
association list (`PropList`) built by sorted insertion.  The recursive
positions use dedicated option-like types (`OptProps`, `OptItems`) so the
whole family is one mutual inductive with structural recursion. -/

inductive JSONSchemaType where
  | Object
  | Number
  | String
  | Array
  | Null
  | Boolean
deriving DecidableEq

/-- Derived serialization of `JSONSchemaType` under
`rename_all = "lowercase"`. -/
def encodeSchemaType : JSONSchemaType → Json
  | .Object => .str "object"
  | .Number => .str "number"
  | .String => .str "string"
  | .Array => .str "array"
  | .Null => .str "null"
  | .Boolean => .str "boolean"

def unknownSchemaTypeVariant (s : String) : String :=
  "unknown variant `" ++ s ++
    "`, expected one of `object`, `number`, `string`, `array`, `null`, `boolean`"

/-- Derived deserialization of `JSONSchemaType`: exact, case-sensitive match
against the six lowercase tags. -/
def decodeSchemaType (s : String) : Except String JSONSchemaType :=
  if s = "object" then .ok .Object
  else if s = "number" then .ok .Number
  else if s = "string" then .ok .String
  else if s = "array" then .ok .Array
  else if s = "null" then .ok .Null
  else if s = "boolean" then .ok .Boolean
  else .error (unknownSchemaTypeVariant s)

mutual

/-- The `JSONSchemaDefine` struct (source lines 296-310). -/
inductive JSONSchemaDefine where
  | mk (schema_type : Option JSONSchemaType) (description : Option String)
       (enum_values : Option (List String)) (properties : OptProps)
       (required : Option (List String)) (items : OptItems)

inductive OptProps where
  | none
  | some (ps : PropList)

inductive PropList where
  | nil
  | cons (k : String) (v : JSONSchemaDefine) (tl : PropList)

inductive OptItems where
  | none
  | some (s : JSONSchemaDefine)
end

def JSONSchemaDefine.schema_type : JSONSchemaDefine → Option JSONSchemaType
  | .mk st _ _ _ _ _ => st

def OptProps.isSome : OptProps → Bool
  | .none => false
  | .some _ => true

def OptItems.isSome : OptItems → Bool
  | .none => false
  | .some _ => true

def PropList.keys : PropList → List String
  | .nil => []
  | .cons k _ tl => k :: tl.keys

/-- `BTreeMap::insert` on the sorted association list: place the new entry
before the first strictly larger key, replace the value (keeping the stored
key) on an equal key. -/
def PropList.insert (k : String) (v : JSONSchemaDefine) : PropList → PropList
  | .nil => .cons k v .nil
  | .cons k2 v2 tl =>
    if strLt k k2 then .cons k v (.cons k2 v2 tl)
    else if k = k2 then .cons k2 v tl
    else .cons k2 v2 (PropList.insert k v tl)

/-- A `BTreeMap` built by inserting the entries of a list left to right. -/
def PropList.ofListInsert (l : List (String × JSONSchemaDefine)) : PropList :=
  l.foldl (fun t kv => t.insert kv.1 kv.2) .nil

/-- Strict lexicographic ascent of a key list. -/
def strAscending : List String → Bool
  | [] => true
  | [_] => true
  | a :: b :: tl => strLt a b && strAscending (b :: tl)

def PropList.keysSorted (t : PropList) : Bool := strAscending t.keys

def JsonObj.keysSorted (kvs : JsonObj) : Bool := strAscending kvs.keys

def encodeOptSchemaType : Option JSONSchemaType → Json
  | Option.none => .null
  | Option.some t => encodeSchemaType t

def encodeStringList (l : List String) : Json :=
  .arr (JsonList.ofList (l.map Json.str))

mutual

/-- Derived serialization of `JSONSchemaDefine`: fields in declaration
order; `type` always emitted (null when unset, no skip attribute), every
other unset optional field omitted; `properties` entries in the order of
the sorted map. -/
def encodeSchema : JSONSchemaDefine → Json
  | .mk st desc ev props req items =>
    .obj (JsonObj.ofList (("type", encodeOptSchemaType st)
      :: (optField "description" (desc.map Json.str)
        ++ optField "enum_values" (ev.map encodeStringList)
        ++ encodePropsField props
        ++ optField "required" (req.map encodeStringList)
        ++ encodeItemsField items)))

def encodePropsField : OptProps → List (String × Json)
  | .none => []
  | .some ps => [("properties", .obj (encodeProps ps))]

def encodeProps : PropList → JsonObj
  | .nil => .nil
  | .cons k v tl => .cons k (encodeSchema v) (encodeProps tl)

def encodeItemsField : OptItems → List (String × Json)
  | .none => []
  | .some s => [("items", encodeSchema s)]
end

/-- Error used by the fuel-indexed decoder when the structural fuel runs
out; the fuel supplied by `decodeSchema` always exceeds the nesting depth
of the input, so the message is unreachable from `decodeSchema`. -/
def depthLimitMsg : String := "recursion limit exceeded"

def decodeTypeField (kvs : JsonObj) : Except String (Option JSONSchemaType) :=
  match kvs.lookup "type" with
  | Option.none => .ok Option.none
  | Option.some .null => .ok Option.none
  | Option.some (.str s) => (decodeSchemaType s).map Option.some
  | Option.some v => .error (invalidTypeMsg (jsonKindName v) "a string")

def decodeStringListElems : JsonList → Except String (List String)
  | .nil => .ok []
  | .cons (.str s) tl =>
    (match decodeStringListElems tl with
     | .error e => .error e
     | .ok ss => .ok (s :: ss))
  | .cons v _ => .error (invalidTypeMsg (jsonKindName v) "a string")

def decodeOptStringList (kvs : JsonObj) (name : String) :
    Except String (Option (List String)) :=
  match kvs.lookup name with
  | Option.none => .ok Option.none
  | Option.some .null => .ok Option.none
  | Option.some (.arr xs) => (decodeStringListElems xs).map Option.some
  | Option.some v => .error (invalidTypeMsg (jsonKindName v) "a sequence")

/-- Derived deserialization of `JSONSchemaDefine`, indexed by structural
fuel: unknown keys are ignored, each absent optional field is left unset,
`properties` entries are decoded in wire order and inserted into the sorted
map, `properties` values and `items` recurse. -/
def decodeSchemaFuel : Nat → Json → Except String JSONSchemaDefine
  | 0, _ => .error depthLimitMsg
  | fuel+1, .obj kvs =>
    (match decodeTypeField kvs with
     | .error e => .error e
     | .ok st =>
      match decodeOptString kvs "description" with
      | .error e => .error e
      | .ok desc =>
       match decodeOptStringList kvs "enum_values" with
       | .error e => .error e
       | .ok ev =>
        match (match kvs.lookup "properties" with
               | Option.none => Except.ok OptProps.none
               | Option.some .null => Except.ok OptProps.none
               | Option.some (.obj pkvs) =>
                  Except.map OptProps.some
                    (pkvs.toList.foldlM
                      (fun (acc : PropList) (kv : String × Json) =>
                        match decodeSchemaFuel fuel kv.2 with
                        | .error e => .error e
                        | .ok s => .ok (PropList.insert kv.1 s acc)) PropList.nil)
               | Option.some v => Except.error (invalidTypeMsg (jsonKindName v) "a map")) with
        | .error e => .error e
        | .ok props =>
         match decodeOptStringList kvs "required" with
         | .error e => .error e
         | .ok req =>
          match (match kvs.lookup "items" with
                 | Option.none => Except.ok OptItems.none
                 | Option.some .null => Except.ok OptItems.none
                 | Option.some ij => Except.map OptItems.some (decodeSchemaFuel fuel ij)) with
          | .error e => .error e
          | .ok items => .ok (.mk st desc ev props req items))
  | _+1, j => .error (invalidTypeMsg (jsonKindName j) "struct JSONSchemaDefine")

/-- Deserialization of `JSONSchemaDefine`: the fuel is one more than the
nesting depth of the input, which the recursion never exhausts. -/
def decodeSchema (j : Json) : Except String JSONSchemaDefine :=
  decodeSchemaFuel (j.depth + 1) j

def exceptIsOk {ε α : Type} : Except ε α → Bool
  | .ok _ => true
  | .error _ => false

/-- A schema document nested to depth `n + 1` through the `items` field. -/
def deepSchemaJson : Nat → Json
  | 0 => .obj .nil
  | n+1 => .obj (.cons "items" (deepSchemaJson n) .nil)

/-- The decoded value of `deepSchemaJson`. -/
def deepSchemaVal : Nat → JSONSchemaDefine
  | 0 => .mk Option.none Option.none Option.none .none Option.none .none
  | n+1 => .mk Option.none Option.none Option.none .none Option.none (.some (deepSchemaVal n))

/-- Top-level keys of an encoded JSON object (empty for non-objects). -/
def objKeys : Json → List String
  | .obj kvs => kvs.keys
  | _ => []

/-- Head lower bound: `a` is strictly below the head of the list (or the
list is empty). -/
def strLb (a : String) : List String → Bool
  | [] => true
  | b :: _ => strLt a b

/-- The `properties` part of the schema decoder, named for reasoning (the
body of `decodeSchemaFuel` inlines exactly this term). -/
def decodePropsFieldF (fuel : Nat) (kvs : JsonObj) : Except String OptProps :=
  match kvs.lookup "properties" with
  | Option.none => .ok OptProps.none
  | Option.some .null => .ok OptProps.none
  | Option.some (.obj pkvs) =>
     Except.map OptProps.some
       (pkvs.toList.foldlM
         (fun (acc : PropList) (kv : String × Json) =>
            match decodeSchemaFuel fuel kv.2 with
            | .error e => .error e
            | .ok s => .ok (PropList.insert kv.1 s acc)) PropList.nil)
  | Option.some v => .error (invalidTypeMsg (jsonKindName v) "a map")

/-- The `items` part of the schema decoder, named for reasoning. -/
def decodeItemsFieldF (fuel : Nat) (kvs : JsonObj) : Except String OptItems :=
  match kvs.lookup "items" with
  | Option.none => .ok OptItems.none
  | Option.some .null => .ok OptItems.none
  | Option.some ij => Except.map OptItems.some (decodeSchemaFuel fuel ij)

/-! ### Messages, metadata and the request aggregate

Embeds `MessageRole`, `ToolCallFunction`, `ToolCall`,
`ChatCompletionMessage`, `LoraRequest`, `EmpowerMetadata` and
`ChatCompletionRequest` with their derived serde implementations: every
optional field of the request carries `skip_serializing_if =
"Option::is_none"` (the `tool_choice` field additionally uses
`serialize_tool_choice`), while `model` and `messages` are plain required
fields; `EmpowerMetadata` has no skip attributes, and
`ChatCompletionMessage.content` has none either (it is emitted as null
when unset). -/

inductive MessageRole where
  | user
  | system
  | assistant
  | function
  | tool
deriving DecidableEq

def encodeMessageRole : MessageRole → Json
  | .user => .str "user"
  | .system => .str "system"
  | .assistant => .str "assistant"
  | .function => .str "function"
  | .tool => .str "tool"

def decodeMessageRole (j : Json) : Except String MessageRole :=
  match j with
  | .str s =>
      if s = "user" then .ok .user
      else if s = "system" then .ok .system
      else if s = "assistant" then .ok .assistant
      else if s = "function" then .ok .function
      else if s = "tool" then .ok .tool
      else .error ("unknown variant `" ++ s ++
        "`, expected one of `user`, `system`, `assistant`, `function`, `tool`")
  | j => .error (invalidTypeMsg (jsonKindName j) "enum MessageRole")

structure ToolCallFunction where
  name : Option String
  arguments : Option String
deriving DecidableEq

def encodeToolCallFunction (f : ToolCallFunction) : Json :=
  .obj (JsonObj.ofList (optField "name" (f.name.map .str)
    ++ optField "arguments" (f.arguments.map .str)))

def decodeToolCallFunction (j : Json) : Except String ToolCallFunction :=
  match j with
  | .obj kvs => do
    let name ← decodeOptString kvs "name"
    let args ← decodeOptString kvs "arguments"
    Except.ok ⟨name, args⟩
  | j => .error (invalidTypeMsg (jsonKindName j) "struct ToolCallFunction")

structure ToolCall where
  id : String
  type : String
  function : ToolCallFunction
deriving DecidableEq

def encodeToolCall (c : ToolCall) : Json :=
  .obj (.cons "id" (.str c.id) (.cons "type" (.str c.type)
    (.cons "function" (encodeToolCallFunction c.function) .nil)))

def decodeReqString (kvs : JsonObj) (name : String) : Except String String :=
  match kvs.lookup name with
  | Option.some (.str s) => .ok s
  | Option.some v => .error (invalidTypeMsg (jsonKindName v) "a string")
  | Option.none => .error ("missing field `" ++ name ++ "`")

def decodeToolCall (j : Json) : Except String ToolCall :=
  match j with
  | .obj kvs => do
    let id ← decodeReqString kvs "id"
    let ty ← decodeReqString kvs "type"
    let fn ← match kvs.lookup "function" with
      | Option.some v => decodeToolCallFunction v
      | Option.none => Except.error "missing field `function`"
    Except.ok ⟨id, ty, fn⟩
  | j => .error (invalidTypeMsg (jsonKindName j) "struct ToolCall")

def decodeToolCallElems : JsonList → Except String (List ToolCall)
  | .nil => .ok []
  | .cons j tl =>
    (match decodeToolCall j with
     | .error e => .error e
     | .ok c =>
       match decodeToolCallElems tl with
       | .error e => .error e
       | .ok cs => .ok (c :: cs))

structure ChatCompletionMessage where
  role : MessageRole
  content : Option Content
  tool_calls : Option (List ToolCall)
  tool_call_id : Option String
deriving DecidableEq

def encodeToolCallList (cs : List ToolCall) : Json :=
  .arr (JsonList.ofList (cs.map encodeToolCall))

def encodeMessage (m : ChatCompletionMessage) : Json :=
  .obj (JsonObj.ofList (("role", encodeMessageRole m.role)
    :: ("content", match m.content with
        | Option.none => .null
        | Option.some c => c.serialize)
    :: (optField "tool_calls" (m.tool_calls.map encodeToolCallList)
      ++ optField "tool_call_id" (m.tool_call_id.map .str))))

def decodeMessage (j : Json) : Except String ChatCompletionMessage :=
  match j with
  | .obj kvs => do
    let role ← match kvs.lookup "role" with
      | Option.some v => decodeMessageRole v
      | Option.none => Except.error "missing field `role`"
    let content ← match kvs.lookup "content" with
      | Option.none => Except.ok Option.none
      | Option.some .null => Except.ok Option.none
      | Option.some v => (Content.deserialize v).map Option.some
    let tool_calls ← match kvs.lookup "tool_calls" with
      | Option.none => Except.ok Option.none
      | Option.some .null => Except.ok Option.none
      | Option.some (.arr xs) => (decodeToolCallElems xs).map Option.some
      | Option.some v => Except.error (invalidTypeMsg (jsonKindName v) "a sequence")
    let tci ← decodeOptString kvs "tool_call_id"
    Except.ok ⟨role, content, tool_calls, tci⟩
  | j => .error (invalidTypeMsg (jsonKindName j) "struct ChatCompletionMessage")

def decodeMessageElems : JsonList → Except String (List ChatCompletionMessage)
  | .nil => .ok []
  | .cons j tl =>
    (match decodeMessage j with
     | .error e => .error e
     | .ok m =>
       match decodeMessageElems tl with
       | .error e => .error e
       | .ok ms => .ok (m :: ms))

structure LoraRequest where
  lora_id : String
  lora_int_id : Int
  lora_local_path : String
deriving DecidableEq

def intNum (i : Int) : Json := .num (i : Rat)

def encodeLoraRequest (l : LoraRequest) : Json :=
  .obj (.cons "lora_id" (.str l.lora_id) (.cons "lora_int_id" (intNum l.lora_int_id)
    (.cons "lora_local_path" (.str l.lora_local_path) .nil)))

def decodeI32 (j : Json) : Except String Int :=
  match j with
  | .num q =>
      if q.den = 1 ∧ -(2^31) ≤ q.num ∧ q.num < 2^31 then .ok q.num
      else .error (invalidTypeMsg "number" "i32")
  | j => .error (invalidTypeMsg (jsonKindName j) "i32")

def decodeI64 (j : Json) : Except String Int :=
  match j with
  | .num q =>
      if q.den = 1 ∧ -(2^63) ≤ q.num ∧ q.num < 2^63 then .ok q.num
      else .error (invalidTypeMsg "number" "i64")
  | j => .error (invalidTypeMsg (jsonKindName j) "i64")

def decodeUsize (j : Json) : Except String Nat :=
  match j with
  | .num q =>
      if q.den = 1 ∧ 0 ≤ q.num ∧ q.num < 2^64 then .ok q.num.toNat
      else .error (invalidTypeMsg "number" "usize")
  | j => .error (invalidTypeMsg (jsonKindName j) "usize")

def decodeF64 (j : Json) : Except String Rat :=
  match j with
  | .num q => .ok q
  | j => .error (invalidTypeMsg (jsonKindName j) "f64")

def decodeBoolJ (j : Json) : Except String Bool :=
  match j with
  | .bool b => .ok b
  | j => .error (invalidTypeMsg (jsonKindName j) "a boolean")

/-- Derived deserialization of one optional struct field: absent key or
JSON null is unset, otherwise the inner decoder runs. -/
def decodeOptFieldWith {α : Type} (dec : Json → Except String α) (kvs : JsonObj)
    (name : String) : Except String (Option α) :=
  match kvs.lookup name with
  | Option.none => .ok Option.none
  | Option.some .null => .ok Option.none
  | Option.some v => (dec v).map Option.some

def decodeLoraRequest (j : Json) : Except String LoraRequest :=
  match j with
  | .obj kvs => do
    let id ← decodeReqString kvs "lora_id"
    let iid ← match kvs.lookup "lora_int_id" with
      | Option.some v => decodeI32 v
      | Option.none => Except.error "missing field `lora_int_id`"
    let path ← decodeReqString kvs "lora_local_path"
    Except.ok ⟨id, iid, path⟩
  | j => .error (invalidTypeMsg (jsonKindName j) "struct LoraRequest")

structure EmpowerMetadata where
  id : String
  lora_request : Option LoraRequest
  use_beam_search : Option Bool
  best_of : Option Int
  tools_only : Option Bool
  tools_enabled : Option Bool
  conversation_json_schema : Option String
  tools_json_schema : Option String
  num_cached_prefix_messages : Option Nat
  logprobs : Option Nat
  ignore_eos : Bool
  skip_chat_template : Bool
deriving DecidableEq

def nullable (f : α → Json) : Option α → Json
  | Option.none => .null
  | Option.some a => f a

/-- Derived serialization of `EmpowerMetadata`: no skip attributes, so
every field is emitted, unset options as JSON null. -/
def encodeEmpowerMetadata (m : EmpowerMetadata) : Json :=
  .obj (JsonObj.ofList
    [("id", .str m.id),
     ("lora_request", nullable encodeLoraRequest m.lora_request),
     ("use_beam_search", nullable Json.bool m.use_beam_search),
     ("best_of", nullable intNum m.best_of),
     ("tools_only", nullable Json.bool m.tools_only),
     ("tools_enabled", nullable Json.bool m.tools_enabled),
     ("conversation_json_schema", nullable Json.str m.conversation_json_schema),
     ("tools_json_schema", nullable Json.str m.tools_json_schema),
     ("num_cached_prefix_messages", nullable (fun n => intNum (n : Int))
        m.num_cached_prefix_messages),
     ("logprobs", nullable (fun n => intNum (n : Int)) m.logprobs),
     ("ignore_eos", .bool m.ignore_eos),
     ("skip_chat_template", .bool m.skip_chat_template)])

def decodeReqBool (kvs : JsonObj) (name : String) : Except String Bool :=
  match kvs.lookup name with
  | Option.some (.bool b) => .ok b
  | Option.some v => .error (invalidTypeMsg (jsonKindName v) "a boolean")
  | Option.none => .error ("missing field `" ++ name ++ "`")

def decodeEmpowerMetadata (j : Json) : Except String EmpowerMetadata :=
  match j with
  | .obj kvs => do
    let id ← decodeReqString kvs "id"
    let lora ← decodeOptFieldWith decodeLoraRequest kvs "lora_request"
    let ubs ← decodeOptFieldWith decodeBoolJ kvs "use_beam_search"
    let bo ← decodeOptFieldWith decodeI32 kvs "best_of"
    let to2 ← decodeOptFieldWith decodeBoolJ kvs "tools_only"
    let te ← decodeOptFieldWith decodeBoolJ kvs "tools_enabled"
    let cjs ← decodeOptString kvs "conversation_json_schema"
    let tjs ← decodeOptString kvs "tools_json_schema"
    let ncp ← decodeOptFieldWith decodeUsize kvs "num_cached_prefix_messages"
    let lp ← decodeOptFieldWith decodeUsize kvs "logprobs"
    let ie ← decodeReqBool kvs "ignore_eos"
    let sct ← decodeReqBool kvs "skip_chat_template"
    Except.ok ⟨id, lora, ubs, bo, to2, te, cjs, tjs, ncp, lp, ie, sct⟩
  | j => .error (invalidTypeMsg (jsonKindName j) "struct EmpowerMetadata")

structure ChatCompletionRequest where
  model : String
  messages : List ChatCompletionMessage
  temperature : Option Rat
  top_p : Option Rat
  n : Option Int
  response_format : Option Json
  stream : Option Bool
  stop : Option (List String)
  max_tokens : Option Int
  presence_penalty : Option Rat
  frequency_penalty : Option Rat
  logit_bias : Option (List (String × Int))
  user : Option String
  seed : Option Int
  tools : Option (List Tool)
  tool_choice : Option ToolChoiceType
  prettify_tools : Option Bool
  structure_output_decoding_mode : Option String
  use_raw_output : Option Bool
  include_thinking : Option Bool
  empower_metadata : Option EmpowerMetadata

/-- `ChatCompletionRequest::new` (source lines 88-114): required `model`
and `messages`, every optional field unset. -/
def ChatCompletionRequest.new (model : String) (messages : List ChatCompletionMessage) :
    ChatCompletionRequest :=
  ⟨model, messages, Option.none, Option.none, Option.none, Option.none, Option.none,
   Option.none, Option.none, Option.none, Option.none, Option.none, Option.none,
   Option.none, Option.none, Option.none, Option.none, Option.none, Option.none,
   Option.none, Option.none⟩

/-- Serialization of the `logit_bias` map (modelled as an association list
in iteration order; no claim depends on `HashMap` iteration order). -/
def encodeLogitBias (l : List (String × Int)) : Json :=
  .obj (JsonObj.ofList (l.map (fun kv => (kv.1, intNum kv.2))))

def encodeToolList (ts : List Tool) : Json :=
  .arr (JsonList.ofList (ts.map Tool.encode))

/-- Derived serialization of `ChatCompletionRequest`: fields in declaration
order, every unset optional field skipped, `tool_choice` emitted through
`serialize_tool_choice` when set. -/
def encodeRequestFields (r : ChatCompletionRequest) : List (String × Json) :=
  ("model", .str r.model)
  :: ("messages", .arr (JsonList.ofList (r.messages.map encodeMessage)))
  :: (optField "temperature" (r.temperature.map .num)
    ++ optField "top_p" (r.top_p.map .num)
    ++ optField "n" (r.n.map intNum)
    ++ optField "response_format" r.response_format
    ++ optField "stream" (r.stream.map .bool)
    ++ optField "stop" (r.stop.map encodeStringList)
    ++ optField "max_tokens" (r.max_tokens.map intNum)
    ++ optField "presence_penalty" (r.presence_penalty.map .num)
    ++ optField "frequency_penalty" (r.frequency_penalty.map .num)
    ++ optField "logit_bias" (r.logit_bias.map encodeLogitBias)
    ++ optField "user" (r.user.map .str)
    ++ optField "seed" (r.seed.map intNum)
    ++ optField "tools" (r.tools.map encodeToolList)
    ++ optField "tool_choice" (r.tool_choice.map
        (fun tc => serialize_tool_choice (Option.some tc)))
    ++ optField "prettify_tools" (r.prettify_tools.map .bool)
    ++ optField "structure_output_decoding_mode"
        (r.structure_output_decoding_mode.map .str)
    ++ optField "use_raw_output" (r.use_raw_output.map .bool)
    ++ optField "include_thinking" (r.include_thinking.map .bool)
    ++ optField "empower_metadata" (r.empower_metadata.map encodeEmpowerMetadata))

def encodeChatCompletionRequest (r : ChatCompletionRequest) : Json :=
  .obj (JsonObj.ofList (encodeRequestFields r))

def decodeStringElems : JsonList → Except String (List String)
  | .nil => .ok []
  | .cons (.str s) tl =>
    (match decodeStringElems tl with
     | .error e => .error e
     | .ok ss => .ok (s :: ss))
  | .cons v _ => .error (invalidTypeMsg (jsonKindName v) "a string")

def decodeStringListJ (j : Json) : Except String (List String) :=
  match j with
  | .arr xs => decodeStringElems xs
  | j => .error (invalidTypeMsg (jsonKindName j) "a sequence")

def decodeToolElems : JsonList → Except String (List Tool)
  | .nil => .ok []
  | .cons j tl =>
    (match Tool.decode j with
     | .error e => .error e
     | .ok t =>
       match decodeToolElems tl with
       | .error e => .error e
       | .ok ts => .ok (t :: ts))

def decodeToolListJ (j : Json) : Except String (List Tool) :=
  match j with
  | .arr xs => decodeToolElems xs
  | j => .error (invalidTypeMsg (jsonKindName j) "a sequence")

def decodeLogitBiasEntries : JsonObj → Except String (List (String × Int))
  | .nil => .ok []
  | .cons k v tl =>
    (match decodeI32 v with
     | .error e => .error e
     | .ok n =>
       match decodeLogitBiasEntries tl with
       | .error e => .error e
       | .ok rest => .ok ((k, n) :: rest))

def decodeLogitBiasJ (j : Json) : Except String (List (String × Int)) :=
  match j with
  | .obj kvs => decodeLogitBiasEntries kvs
  | j => .error (invalidTypeMsg (jsonKindName j) "a map")

/-- Derived deserialization of `ChatCompletionRequest`: `model` and
`messages` required, every other field optional (absent key leaves it
unset), unknown keys ignored. -/
def decodeChatCompletionRequest (j : Json) : Except String ChatCompletionRequest :=
  match j with
  | .obj kvs => do
    let model ← decodeReqString kvs "model"
    let messages ← match kvs.lookup "messages" with
      | Option.some (.arr xs) => decodeMessageElems xs
      | Option.some v => Except.error (invalidTypeMsg (jsonKindName v) "a sequence")
      | Option.none => Except.error "missing field `messages`"
    let temperature ← decodeOptFieldWith decodeF64 kvs "temperature"
    let top_p ← decodeOptFieldWith decodeF64 kvs "top_p"
    let n ← decodeOptFieldWith decodeI64 kvs "n"
    let response_format ← decodeOptFieldWith Except.ok kvs "response_format"
    let stream ← decodeOptFieldWith decodeBoolJ kvs "stream"
    let stop ← decodeOptFieldWith decodeStringListJ kvs "stop"
    let max_tokens ← decodeOptFieldWith decodeI64 kvs "max_tokens"
    let presence_penalty ← decodeOptFieldWith decodeF64 kvs "presence_penalty"
    let frequency_penalty ← decodeOptFieldWith decodeF64 kvs "frequency_penalty"
    let logit_bias ← decodeOptFieldWith decodeLogitBiasJ kvs "logit_bias"
    let user ← decodeOptString kvs "user"
    let seed ← decodeOptFieldWith decodeI64 kvs "seed"
    let tools ← decodeOptFieldWith decodeToolListJ kvs "tools"
    let tool_choice ← decodeOptFieldWith decodeToolChoiceType kvs "tool_choice"
    let prettify_tools ← decodeOptFieldWith decodeBoolJ kvs "prettify_tools"
    let sodm ← decodeOptString kvs "structure_output_decoding_mode"
    let use_raw_output ← decodeOptFieldWith decodeBoolJ kvs "use_raw_output"
    let include_thinking ← decodeOptFieldWith decodeBoolJ kvs "include_thinking"
    let empower_metadata ← decodeOptFieldWith decodeEmpowerMetadata kvs "empower_metadata"
    Except.ok ⟨model, messages, temperature, top_p, n, response_format, stream, stop,
      max_tokens, presence_penalty, frequency_penalty, logit_bias, user, seed, tools,
      tool_choice, prettify_tools, sodm, use_raw_output, include_thinking, empower_metadata⟩
  | j => .error (invalidTypeMsg (jsonKindName j) "struct ChatCompletionRequest")

theorem lexLt_irrefl (a : List Char) : lexLt a a = false := by
  induction a with
  | nil => rfl
  | cons x xs ih => simp [lexLt, ih]

theorem lexLt_asymm {a b : List Char} (h : lexLt a b = true) : lexLt b a = false := by
  induction a generalizing b with
  | nil =>
    cases b with
    | nil => simp [lexLt] at h
    | cons y ys => simp [lexLt]
  | cons x xs ih =>
    cases b with
    | nil => simp [lexLt] at h
    | cons y ys =>
      simp only [lexLt] at h ⊢
      rcases lt_trichotomy x y with h1 | h1 | h1
      · simp [h1, not_lt_of_gt h1]
      · subst h1
        simp only [lt_irrefl, if_false] at h ⊢
        exact ih h
      · simp [h1, not_lt_of_gt h1] at h

theorem lexLt_trichotomy (a b : List Char) : lexLt a b = true ∨ a = b ∨ lexLt b a = true := by
  induction a generalizing b with
  | nil => cases b <;> simp [lexLt]
  | cons x xs ih =>
    cases b with
    | nil => simp [lexLt]
    | cons y ys =>
      rcases lt_trichotomy x y with h | h | h
      · left; simp [lexLt, h]
      · subst h
        rcases ih ys with h2 | h2 | h2
        · left; simp [lexLt, h2]
        · right; left; simp [h2]
        · right; right; simp [lexLt, h2]
      · right; right; simp [lexLt, h, not_lt_of_gt h]

theorem lexLt_trans {a b c : List Char} (hab : lexLt a b = true) (hbc : lexLt b c = true) :
    lexLt a c = true := by
  induction a generalizing b c with
  | nil =>
    cases c with
    | nil => cases b with
      | nil => simp [lexLt] at hab
      | cons y ys => simp [lexLt] at hbc
    | cons z zs => simp [lexLt]
  | cons x xs ih =>
    cases b with
    | nil => simp [lexLt] at hab
    | cons y ys =>
      cases c with
      | nil => simp [lexLt] at hbc
      | cons z zs =>
        simp only [lexLt] at hab hbc ⊢
        rcases lt_trichotomy x y with h1 | h1 | h1
        · rcases lt_trichotomy y z with h2 | h2 | h2
          · simp [lt_trans h1 h2]
          · subst h2; simp [h1]
          · simp [h2, not_lt_of_gt h2] at hbc
        · subst h1
          rcases lt_trichotomy x z with h2 | h2 | h2
          · simp [h2]
          · subst h2
            simp only [lt_irrefl, if_false] at hab hbc ⊢
            exact ih hab hbc
          · simp [h2, not_lt_of_gt h2] at hbc
        · simp [h1, not_lt_of_gt h1] at hab

theorem String.data_eq {a b : String} (h : a.data = b.data) : a = b := by
  cases a; cases b; exact congrArg String.mk h

theorem strLt_irrefl (a : String) : strLt a a = false := lexLt_irrefl a.data

theorem strLt_asymm {a b : String} (h : strLt a b = true) : strLt b a = false :=
  lexLt_asymm h

theorem strLt_trans {a b c : String} (hab : strLt a b = true) (hbc : strLt b c = true) :
    strLt a c = true := lexLt_trans hab hbc

theorem strLt_trichotomy (a b : String) : strLt a b = true ∨ a = b ∨ strLt b a = true := by
  rcases lexLt_trichotomy a.data b.data with h | h | h
  · exact Or.inl h
  · exact Or.inr (Or.inl (String.data_eq h))
  · exact Or.inr (Or.inr h)

theorem strLt_of_ne {a b : String} (h : a ≠ b) (h2 : strLt b a = false) : strLt a b = true := by
  rcases strLt_trichotomy a b with h3 | h3 | h3
  · exact h3
  · exact absurd h3 h
  · rw [h3] at h2; cases h2

theorem decodeBlocks_forall₂ :
    ∀ (xs : JsonList) (bs : List StructuredContent), decodeBlocks xs = .ok bs →
      List.Forall₂ (fun j b => decodeStructuredContent j = .ok b) xs.toList bs
  | .nil, bs, h => by
    simp only [decodeBlocks] at h
    cases h
    exact List.Forall₂.nil
  | .cons j tl, bs, h => by
    simp only [decodeBlocks] at h
    cases hd : decodeStructuredContent j with
    | error e => rw [hd] at h; cases h
    | ok b =>
      rw [hd] at h
      cases ht : decodeBlocks tl with
      | error e => rw [ht] at h; cases h
      | ok bs2 =>
        rw [ht] at h
        cases h
        exact List.Forall₂.cons hd (decodeBlocks_forall₂ tl bs2 ht)

/-- C3: Decoding a `Content` value from JSON yields `PlainText s` when the
JSON value is a string `s`, and `Structured blocks` preserving original
element order when the JSON value is an array of objects tagged `text` or
`image_url`; every other top-level JSON shape (object, number, bool, null)
is a decode failure whose message names the expected shapes, and an unknown
discriminator value inside an array element is a decode failure. -/
theorem claim_C3_content_decode :
    (∀ s : String, Content.deserialize (.str s) = .ok (.PlainText s))
    ∧ (∀ xs : JsonList, Content.deserialize (.arr xs) = (decodeBlocks xs).map Content.Structured)
    ∧ (∀ (xs : JsonList) (bs : List StructuredContent), decodeBlocks xs = .ok bs →
        List.Forall₂ (fun j b => decodeStructuredContent j = .ok b) xs.toList bs)
    ∧ Content.deserialize .null = .error (invalidTypeMsg "null" contentExpecting)
    ∧ (∀ b, Content.deserialize (.bool b) = .error (invalidTypeMsg "boolean" contentExpecting))
    ∧ (∀ q, Content.deserialize (.num q) = .error (invalidTypeMsg "number" contentExpecting))
    ∧ (∀ kvs, Content.deserialize (.obj kvs) = .error (invalidTypeMsg "map" contentExpecting))
    ∧ contentExpecting = "a string or an array of structured content"
    ∧ (∀ (kvs : JsonObj) (tag : String) (tl : JsonList),
        kvs.lookup "type" = Option.some (.str tag) → tag ≠ "text" → tag ≠ "image_url" →
          Content.deserialize (.arr (.cons (.obj kvs) tl))
            = .error (unknownContentVariant tag)) := by
  refine ⟨fun s => rfl, fun xs => rfl, decodeBlocks_forall₂, rfl, fun b => rfl, fun q => rfl,
    fun kvs => rfl, rfl, ?_⟩
  intro kvs tag tl hlook h1 h2
  simp only [Content.deserialize, decodeBlocks, decodeStructuredContent, hlook, h1, h2,
    if_false, if_neg, Except.map]

/-- Witness for C3 at concrete inputs: a well-formed one-element array
decodes element-wise, and an element with discriminator `bogus` makes the
whole array decode fail. -/
theorem claim_C3_content_decode_witness :
    List.Forall₂ (fun j b => decodeStructuredContent j = .ok b)
      (JsonList.cons (.obj (.cons "type" (.str "text") (.cons "text" (.str "hi") .nil)))
        .nil).toList
      [StructuredContent.Text "hi"]
    ∧ Content.deserialize (.arr (.cons (.obj (.cons "type" (.str "bogus") .nil)) .nil))
        = .error (unknownContentVariant "bogus") :=
  ⟨claim_C3_content_decode.2.2.1 _ _ (by rfl),
   claim_C3_content_decode.2.2.2.2.2.2.2.2 _ "bogus" _ (by rfl) (by decide) (by decide)⟩

/-- C4: Encoding `Content.PlainText s` produces the JSON string `s`;
encoding `Content.Structured blocks` produces a JSON array of the blocks in
order, each tagged with its discriminator; encoding the empty `Structured`
produces an empty JSON array, never an omitted field and never null. -/
theorem claim_C4_content_encode :
    (∀ s : String, Content.serialize (.PlainText s) = .str s)
    ∧ (∀ blocks : List StructuredContent,
        Content.serialize (.Structured blocks)
          = .arr (JsonList.ofList (blocks.map StructuredContent.encode)))
    ∧ (∀ b : StructuredContent, ∃ rest : JsonObj,
        StructuredContent.encode b = .obj (.cons "type" (.str b.tag) rest))
    ∧ Content.serialize (.Structured []) = .arr .nil
    ∧ (∀ v : Content, Content.serialize v ≠ .null) := by
  refine ⟨fun s => rfl, fun blocks => rfl, ?_, rfl, ?_⟩
  · intro b
    cases b with
    | Text t => exact ⟨_, rfl⟩
    | ImageUrl u => exact ⟨_, rfl⟩
  · intro v
    cases v <;> simp [Content.serialize]

theorem decodeStructuredContent_encode (b : StructuredContent) :
    decodeStructuredContent (StructuredContent.encode b) = .ok b := by
  cases b with
  | Text t => rfl
  | ImageUrl u => rfl

theorem decodeBlocks_encode (bs : List StructuredContent) :
    decodeBlocks (JsonList.ofList (bs.map StructuredContent.encode)) = .ok bs := by
  induction bs with
  | nil => rfl
  | cons b tl ih =>
    simp only [List.map, JsonList.ofList, decodeBlocks, decodeStructuredContent_encode, ih]

/-- C5: For every constructible `Content` value `v`, decoding the result of
encoding `v` yields `v` back. -/
theorem claim_C5_content_roundtrip (v : Content) :
    Content.deserialize (Content.serialize v) = .ok v := by
  cases v with
  | PlainText s => rfl
  | Structured blocks =>
    simp only [Content.serialize, Content.deserialize, decodeBlocks_encode, Except.map]

/-- C1: Encoding the `tool_choice` field maps `None` to the JSON string
`none`, `Auto` to `auto`, `Any` to `any` (bare strings), and
`ToolChoice tool` to an object with exactly the two keys `type` and
`function`, holding the type and function of the carried tool, with no
nested `tool` key. -/
theorem claim_C1_tool_choice_encode :
    serialize_tool_choice (Option.some .None) = .str "none"
    ∧ serialize_tool_choice (Option.some .Auto) = .str "auto"
    ∧ serialize_tool_choice (Option.some .Any) = .str "any"
    ∧ (∀ tool : Tool, ∃ kvs : JsonObj,
        serialize_tool_choice (Option.some (.ToolChoice tool)) = .obj kvs
        ∧ kvs.keys = ["type", "function"]
        ∧ kvs.lookup "type" = Option.some (ToolType.encode tool.type)
        ∧ kvs.lookup "function" = Option.some tool.function.encode
        ∧ kvs.lookup "tool" = Option.none) := by
  refine ⟨rfl, rfl, rfl, ?_⟩
  intro tool
  exact ⟨_, rfl, rfl, rfl, rfl, rfl⟩

theorem decodeFunction_encode (f : Function) : Function.decode f.encode = .ok f := by
  obtain ⟨name, desc, params⟩ := f
  cases desc <;> rfl

theorem decodeTool_encode (t : Tool) : Tool.decode t.encode = .ok t := by
  obtain ⟨ty, fn⟩ := t
  cases ty
  simp [Tool.encode, Tool.decode, ToolType.encode, ToolType.decode, JsonObj.lookup,
    decodeFunction_encode, Bind.bind, Except.bind]

/-- C6 counterexample: the derived decoder does not accept the wire shapes
the hand-written encoder emits; the JSON string `none` is an
unknown-variant decode failure, not the `None` variant. -/
theorem claim_C6_counterexample :
    decodeToolChoiceType (.str "none") = .error (unknownToolChoiceVariant "none")
    ∧ serialize_tool_choice (Option.some .None) = .str "none" := ⟨rfl, rfl⟩

/-- C6 amended: decoding a `ToolChoiceType` uses the derived externally
tagged representation: the exact strings `None`, `Auto`, `Any` map to the
corresponding variants, any other string (including the encoder outputs
`none`, `auto`, `any`) is an unknown-variant failure, a single-key object
`ToolChoice` containing a `tool` field is reconstructed into the
`ToolChoice` variant, and an object with `type` and `function` keys is a
decode failure. -/
theorem claim_C6_tool_choice_decode_derived :
    decodeToolChoiceType (.str "None") = .ok .None
    ∧ decodeToolChoiceType (.str "Auto") = .ok .Auto
    ∧ decodeToolChoiceType (.str "Any") = .ok .Any
    ∧ (∀ s : String, s ≠ "None" → s ≠ "Auto" → s ≠ "Any" → s ≠ "ToolChoice" →
        decodeToolChoiceType (.str s) = .error (unknownToolChoiceVariant s))
    ∧ (∀ t : Tool,
        decodeToolChoiceType (.obj (.cons "ToolChoice" (.obj (.cons "tool" t.encode .nil)) .nil))
          = .ok (.ToolChoice t))
    ∧ decodeToolChoiceType (.str "auto") = .error (unknownToolChoiceVariant "auto")
    ∧ decodeToolChoiceType (.str "any") = .error (unknownToolChoiceVariant "any")
    ∧ (∀ (tj fj : Json) (tl : JsonObj),
        decodeToolChoiceType (.obj (.cons "type" tj (.cons "function" fj tl)))
          = .error mapSingleKeyMsg) := by
  refine ⟨rfl, rfl, rfl, ?_, ?_, rfl, rfl, fun tj fj tl => rfl⟩
  · intro s h1 h2 h3 h4
    simp only [decodeToolChoiceType, h1, h2, h3, h4, if_false, if_neg]
  · intro t
    simp [decodeToolChoiceType, JsonObj.lookup, decodeTool_encode, Except.map]

/-- Witness for C6 at a concrete input: the string `bogus` matches no
variant name and fails to decode. -/
theorem claim_C6_tool_choice_decode_derived_witness :
    decodeToolChoiceType (.str "bogus") = .error (unknownToolChoiceVariant "bogus") :=
  claim_C6_tool_choice_decode_derived.2.2.2.1 "bogus"
    (by decide) (by decide) (by decide) (by decide)

theorem strLt_ne {a b : String} (h : strLt a b = true) : a ≠ b := by
  intro he; subst he; rw [strLt_irrefl] at h; cases h

theorem strLt_cases_ne {a b : String} (h : a ≠ b) : strLt a b = true ∨ strLt b a = true := by
  rcases strLt_trichotomy a b with h1 | h1 | h1
  · exact Or.inl h1
  · exact absurd h1 h
  · exact Or.inr h1

theorem PropList.insert_lt {k k2 : String} (h : strLt k k2 = true) (v v2 : JSONSchemaDefine)
    (tl : PropList) :
    PropList.insert k v (.cons k2 v2 tl) = .cons k v (.cons k2 v2 tl) := by
  simp [PropList.insert, h]

theorem PropList.insert_keq {k k2 : String} (h : k = k2) (v v2 : JSONSchemaDefine)
    (tl : PropList) :
    PropList.insert k v (.cons k2 v2 tl) = .cons k2 v tl := by
  subst h; simp [PropList.insert, strLt_irrefl]

theorem PropList.insert_gt {k k2 : String} (h : strLt k2 k = true) (v v2 : JSONSchemaDefine)
    (tl : PropList) :
    PropList.insert k v (.cons k2 v2 tl) = .cons k2 v2 (PropList.insert k v tl) := by
  have h1 := strLt_asymm h
  have h2 : k ≠ k2 := (strLt_ne h).symm
  simp [PropList.insert, h1, h2]

theorem PropList.insert_comm {k1 k2 : String} (h : k1 ≠ k2) (v1 v2 : JSONSchemaDefine) :
    ∀ t : PropList,
      PropList.insert k2 v2 (PropList.insert k1 v1 t)
        = PropList.insert k1 v1 (PropList.insert k2 v2 t)
  | .nil => by
    rcases strLt_cases_ne h with h12 | h21
    · have h21f := strLt_asymm h12
      simp [PropList.insert, h12, h21f, Ne.symm h]
    · have h12f := strLt_asymm h21
      simp [PropList.insert, h21, h12f, h]
  | .cons k3 v3 tl => by
    rcases strLt_trichotomy k1 k3 with h13 | h13 | h13
    · rcases strLt_trichotomy k2 k3 with h23 | h23 | h23
      · -- both below k3: order decided by k1 vs k2
        rcases strLt_cases_ne h with h12 | h21
        · simp only [PropList.insert_lt h13, PropList.insert_gt h12,
            PropList.insert_lt h23, PropList.insert_lt h12]
        · simp only [PropList.insert_lt h13, PropList.insert_lt h23,
            PropList.insert_lt h21, PropList.insert_gt h21]
      · subst h23
        simp only [PropList.insert_lt h13, PropList.insert_gt h13,
          PropList.insert_keq rfl]
      · have h12 := strLt_trans h13 h23
        simp only [PropList.insert_lt h13, PropList.insert_gt h12,
          PropList.insert_gt h23]
    · subst h13
      rcases strLt_trichotomy k2 k1 with h23 | h23 | h23
      · simp only [PropList.insert_keq rfl, PropList.insert_lt h23,
          PropList.insert_gt h23]
      · exact absurd h23.symm h
      · simp only [PropList.insert_keq rfl, PropList.insert_gt h23]
    · rcases strLt_trichotomy k2 k3 with h23 | h23 | h23
      · have h21 := strLt_trans h23 h13
        simp only [PropList.insert_gt h13, PropList.insert_lt h23,
          PropList.insert_gt h21]
      · subst h23
        simp only [PropList.insert_gt h13, PropList.insert_keq rfl]
      · simp only [PropList.insert_gt h13, PropList.insert_gt h23,
          PropList.insert_comm h v1 v2 tl]

theorem ofListInsert_perm {l1 l2 : List (String × JSONSchemaDefine)}
    (hp : l1.Perm l2) (hn : (l1.map Prod.fst).Nodup) :
    PropList.ofListInsert l1 = PropList.ofListInsert l2 := by
  unfold PropList.ofListInsert
  refine hp.foldl_eq' ?_ _
  intro x hx y hy t
  by_cases hxy : x = y
  · subst hxy; rfl
  · have hk : x.1 ≠ y.1 := fun he => hxy (List.inj_on_of_nodup_map hn hx hy he)
    exact PropList.insert_comm hk x.2 y.2 t

theorem strAscending_cons (a : String) (l : List String) :
    strAscending (a :: l) = (strLb a l && strAscending l) := by
  cases l <;> simp [strAscending, strLb]

theorem strLb_insert {k2 k : String} (v : JSONSchemaDefine) (t : PropList)
    (hlb : strLb k2 t.keys = true) (hlt : strLt k2 k = true) :
    strLb k2 (PropList.insert k v t).keys = true := by
  cases t with
  | nil => simpa [PropList.insert, PropList.keys, strLb] using hlt
  | cons k3 v3 tl =>
    simp only [PropList.keys, strLb] at hlb
    by_cases h1 : strLt k k3 = true
    · rw [PropList.insert_lt h1]
      simpa [PropList.keys, strLb] using hlt
    · by_cases h2 : k = k3
      · rw [PropList.insert_keq h2]
        simpa [PropList.keys, strLb] using hlb
      · have h3 : strLt k3 k = true :=
          strLt_of_ne (fun he => h2 he.symm) (Bool.not_eq_true _ ▸ h1)
        rw [PropList.insert_gt h3]
        simpa [PropList.keys, strLb] using hlb

theorem PropList.insert_keysSorted (k : String) (v : JSONSchemaDefine) :
    ∀ t : PropList, t.keysSorted = true → (PropList.insert k v t).keysSorted = true
  | .nil, _ => by
    simp [PropList.insert, PropList.keysSorted, PropList.keys, strAscending]
  | .cons k2 v2 tl, h => by
    rw [PropList.keysSorted, PropList.keys, strAscending_cons, Bool.and_eq_true] at h
    by_cases h1 : strLt k k2 = true
    · rw [PropList.insert_lt h1]
      have hdef : (PropList.cons k v (.cons k2 v2 tl)).keysSorted
          = (strLt k k2 && strAscending (k2 :: tl.keys)) := rfl
      rw [hdef, Bool.and_eq_true]
      refine ⟨h1, ?_⟩
      rw [strAscending_cons, Bool.and_eq_true]
      exact h
    · by_cases h2 : k = k2
      · rw [PropList.insert_keq h2]
        rw [PropList.keysSorted, PropList.keys, strAscending_cons, Bool.and_eq_true]
        exact h
      · have h3 : strLt k2 k = true :=
          strLt_of_ne (fun he => h2 he.symm) (Bool.not_eq_true _ ▸ h1)
        rw [PropList.insert_gt h3]
        rw [PropList.keysSorted, PropList.keys, strAscending_cons, Bool.and_eq_true]
        refine ⟨strLb_insert v tl h.1 h3, ?_⟩
        exact PropList.insert_keysSorted k v tl h.2

theorem ofListInsert_keysSorted (l : List (String × JSONSchemaDefine)) :
    (PropList.ofListInsert l).keysSorted = true := by
  suffices hgen : ∀ t : PropList, t.keysSorted = true →
      (l.foldl (fun t kv => t.insert kv.1 kv.2) t).keysSorted = true from hgen .nil rfl
  induction l with
  | nil => intro t ht; exact ht
  | cons kv tl ih =>
    intro t ht
    exact ih _ (PropList.insert_keysSorted kv.1 kv.2 t ht)

theorem encodeProps_keys : ∀ ps : PropList, (encodeProps ps).keys = ps.keys
  | .nil => rfl
  | .cons k v tl => by
    simp [encodeProps, JsonObj.keys, PropList.keys, encodeProps_keys tl]

/-- C2: Encoding is canonical in the `properties` map: building the map by
inserting the same set of entries in any order yields the same value, hence
the same encoded JSON tree and byte-identical rendered output; the emitted
`properties` entries are always sorted strictly ascending by key. -/
theorem claim_C2_properties_canonical :
    (∀ l1 l2 : List (String × JSONSchemaDefine), l1.Perm l2 → (l1.map Prod.fst).Nodup →
      ∀ (st : Option JSONSchemaType) (d : Option String) (ev req : Option (List String))
        (it : OptItems),
        encodeSchema (.mk st d ev (.some (PropList.ofListInsert l1)) req it)
          = encodeSchema (.mk st d ev (.some (PropList.ofListInsert l2)) req it)
        ∧ (encodeSchema (.mk st d ev (.some (PropList.ofListInsert l1)) req it)).render
          = (encodeSchema (.mk st d ev (.some (PropList.ofListInsert l2)) req it)).render)
    ∧ (∀ l : List (String × JSONSchemaDefine), (PropList.ofListInsert l).keysSorted = true)
    ∧ (∀ ps : PropList, ps.keysSorted = true → (encodeProps ps).keysSorted = true) := by
  refine ⟨?_, ofListInsert_keysSorted, ?_⟩
  · intro l1 l2 hp hn st d ev req it
    have he := ofListInsert_perm hp hn
    rw [he]
    exact ⟨rfl, rfl⟩
  · intro ps h
    rw [JsonObj.keysSorted, encodeProps_keys]
    exact h

/-- Witness for C2 at concrete inputs: the same two-entry map built in the
two insertion orders encodes identically, and its emitted keys are sorted. -/
theorem claim_C2_properties_canonical_witness :
    (encodeSchema (.mk Option.none Option.none Option.none
        (.some (PropList.ofListInsert
          [("b", .mk (Option.some .Null) Option.none Option.none .none Option.none .none),
           ("a", .mk (Option.some .Object) Option.none Option.none .none Option.none .none)]))
        Option.none .none)
      = encodeSchema (.mk Option.none Option.none Option.none
        (.some (PropList.ofListInsert
          [("a", .mk (Option.some .Object) Option.none Option.none .none Option.none .none),
           ("b", .mk (Option.some .Null) Option.none Option.none .none Option.none .none)]))
        Option.none .none))
    ∧ (encodeProps (PropList.ofListInsert
          [("b", .mk (Option.some .Null) Option.none Option.none .none Option.none .none),
           ("a", .mk (Option.some .Object) Option.none Option.none .none Option.none .none)])).keysSorted
        = true :=
  ⟨(claim_C2_properties_canonical.1 _ _ (List.Perm.swap _ _ _) (by decide)
      Option.none Option.none Option.none Option.none .none).1,
   claim_C2_properties_canonical.2.2 _ (claim_C2_properties_canonical.2.1 _)⟩

theorem decodeSchemaFuel_obj (fuel : Nat) (kvs : JsonObj) :
    decodeSchemaFuel (fuel+1) (.obj kvs)
      = (match decodeTypeField kvs with
         | .error e => .error e
         | .ok st =>
           match decodeOptString kvs "description" with
           | .error e => .error e
           | .ok desc =>
             match decodeOptStringList kvs "enum_values" with
             | .error e => .error e
             | .ok ev =>
               match decodePropsFieldF fuel kvs with
               | .error e => .error e
               | .ok props =>
                 match decodeOptStringList kvs "required" with
                 | .error e => .error e
                 | .ok req =>
                   match decodeItemsFieldF fuel kvs with
                   | .error e => .error e
                   | .ok items => .ok (.mk st desc ev props req items)) := rfl

/-- Inversion: a successful schema decode of an object with no `type` key
leaves `schema_type` unset. -/
theorem schema_type_none_of_no_type_key (kvs : JsonObj) (hl : kvs.lookup "type" = Option.none)
    (s : JSONSchemaDefine) (hs : decodeSchema (.obj kvs) = .ok s) :
    s.schema_type = Option.none := by
  rw [decodeSchema, decodeSchemaFuel_obj] at hs
  simp only [decodeTypeField, hl] at hs
  split at hs
  · simp at hs
  · split at hs
    · simp at hs
    · split at hs
      · simp at hs
      · split at hs
        · simp at hs
        · split at hs
          · simp at hs
          · cases hs
            rfl

theorem depth_deepSchemaJson : ∀ n : Nat, Json.depth (deepSchemaJson n) = n + 1
  | 0 => rfl
  | n+1 => by
    have ih := depth_deepSchemaJson n
    simp [deepSchemaJson, Json.depth, JsonObj.depthObj, ih]
    omega

theorem deepSchemaJson_isObj (n : Nat) : ∃ kvs : JsonObj, deepSchemaJson n = .obj kvs := by
  cases n with
  | zero => exact ⟨_, rfl⟩
  | succ m => exact ⟨_, rfl⟩

theorem decodeSchemaFuel_deep : ∀ (n fuel : Nat), n < fuel →
    decodeSchemaFuel fuel (deepSchemaJson n) = .ok (deepSchemaVal n)
  | _, 0, h => absurd h (Nat.not_lt_zero _)
  | 0, fuel+1, _ => rfl
  | n+1, fuel+1, h => by
    have hih := decodeSchemaFuel_deep n fuel (Nat.lt_of_succ_lt_succ h)
    obtain ⟨kvs2, hk⟩ := deepSchemaJson_isObj n
    rw [hk] at hih
    rw [deepSchemaJson, decodeSchemaFuel_obj]
    simp [decodeTypeField, decodeOptString, decodeOptStringList, decodePropsFieldF,
      decodeItemsFieldF, JsonObj.lookup, hk, hih, deepSchemaVal, Except.map]

theorem decodeSchema_deepSchemaJson (n : Nat) :
    decodeSchema (deepSchemaJson n) = .ok (deepSchemaVal n) := by
  rw [decodeSchema]
  exact decodeSchemaFuel_deep n _ (by rw [depth_deepSchemaJson]; omega)

/-- C7 counterexample: decoding the empty object (no `type` key) succeeds
with every field unset, rather than failing with a missing-field error. -/
theorem claim_C7_counterexample :
    decodeSchema (.obj .nil)
      = .ok (.mk Option.none Option.none Option.none .none Option.none .none) := rfl

/-- C7 amended: the `type` key is optional on decode (`schema_type` is an
`Option` without a default requirement): an object lacking it decodes with
`schema_type` unset; a `type` value outside the six lowercase tags fails
with an unknown-variant error. -/
theorem claim_C7_schema_type_decode :
    (∀ kvs : JsonObj, kvs.lookup "type" = Option.none →
      ∀ s : JSONSchemaDefine, decodeSchema (.obj kvs) = .ok s → s.schema_type = Option.none)
    ∧ decodeSchema (.obj .nil)
        = .ok (.mk Option.none Option.none Option.none .none Option.none .none)
    ∧ (∀ t : String, t ≠ "object" → t ≠ "number" → t ≠ "string" → t ≠ "array" →
        t ≠ "null" → t ≠ "boolean" →
        decodeSchema (.obj (.cons "type" (.str t) .nil))
          = .error (unknownSchemaTypeVariant t)) := by
  refine ⟨schema_type_none_of_no_type_key, rfl, ?_⟩
  intro t h1 h2 h3 h4 h5 h6
  rw [decodeSchema]
  have hd : Json.depth (.obj (.cons "type" (.str t) .nil)) = 1 := rfl
  rw [hd, decodeSchemaFuel_obj]
  simp [decodeTypeField, JsonObj.lookup, decodeSchemaType, h1, h2, h3, h4, h5, h6, Except.map]

/-- Witness for C7 at concrete inputs: the empty object decodes with
`schema_type` unset, and the tag `bogus` is rejected as an unknown
variant. -/
theorem claim_C7_schema_type_decode_witness :
    (JSONSchemaDefine.mk Option.none Option.none Option.none .none Option.none
        .none).schema_type = Option.none
    ∧ decodeSchema (.obj (.cons "type" (.str "bogus") .nil))
        = .error (unknownSchemaTypeVariant "bogus") :=
  ⟨claim_C7_schema_type_decode.1 .nil rfl _ rfl,
   claim_C7_schema_type_decode.2.2 "bogus" (by decide) (by decide) (by decide) (by decide)
     (by decide) (by decide)⟩

/-- C9 counterexample: there is no depth bound beyond which the schema
decoder rejects its input: for every candidate bound, a deeper document
still decodes successfully. -/
theorem claim_C9_counterexample :
    ¬ ∃ bound : Nat, ∀ j : Json, bound < Json.depth j →
        exceptIsOk (decodeSchema j) = false := by
  rintro ⟨b, hb⟩
  have h1 := hb (deepSchemaJson b) (by rw [depth_deepSchemaJson]; omega)
  rw [decodeSchema_deepSchemaJson] at h1
  simp [exceptIsOk] at h1

/-- C9 amended: the schema decoder imposes no depth ceiling: a document
nested through `items` to any depth decodes successfully (the decoder
recurses structurally over the finite input, so no `DepthExceeded` error
exists). -/
theorem claim_C9_no_depth_ceiling (n : Nat) :
    decodeSchema (deepSchemaJson n) = .ok (deepSchemaVal n)
    ∧ Json.depth (deepSchemaJson n) = n + 1 :=
  ⟨decodeSchema_deepSchemaJson n, depth_deepSchemaJson n⟩

theorem keys_ofList (l : List (String × Json)) :
    (JsonObj.ofList l).keys = l.map Prod.fst := by
  induction l with
  | nil => rfl
  | cons kv tl ih => simp [JsonObj.ofList, JsonObj.keys, ih]

/-- C10: The encoded schema object always contains the key `type` (emitted
as JSON null when `schema_type` is unset), while every other unset optional
field is omitted entirely; correspondingly, decoding an object without a
`type` key succeeds with `schema_type` unset. -/
theorem claim_C10_type_always_emitted :
    (∀ s : JSONSchemaDefine, ∃ rest : JsonObj,
        encodeSchema s = .obj (.cons "type" (encodeOptSchemaType s.schema_type) rest))
    ∧ encodeOptSchemaType Option.none = .null
    ∧ (∀ (st : Option JSONSchemaType) (d : Option String) (ev : Option (List String))
        (props : OptProps) (req : Option (List String)) (it : OptItems),
        ("type" ∈ objKeys (encodeSchema (.mk st d ev props req it)))
        ∧ (("description" ∈ objKeys (encodeSchema (.mk st d ev props req it)))
            ↔ d.isSome = true)
        ∧ (("enum_values" ∈ objKeys (encodeSchema (.mk st d ev props req it)))
            ↔ ev.isSome = true)
        ∧ (("properties" ∈ objKeys (encodeSchema (.mk st d ev props req it)))
            ↔ props.isSome = true)
        ∧ (("required" ∈ objKeys (encodeSchema (.mk st d ev props req it)))
            ↔ req.isSome = true)
        ∧ (("items" ∈ objKeys (encodeSchema (.mk st d ev props req it)))
            ↔ it.isSome = true))
    ∧ (∀ kvs : JsonObj, kvs.lookup "type" = Option.none →
        ∀ s : JSONSchemaDefine, decodeSchema (.obj kvs) = .ok s → s.schema_type = Option.none)
    ∧ decodeSchema (.obj .nil)
        = .ok (.mk Option.none Option.none Option.none .none Option.none .none) := by
  refine ⟨?_, rfl, ?_, schema_type_none_of_no_type_key, rfl⟩
  · intro s
    cases s with
    | mk st d ev props req it => exact ⟨_, rfl⟩
  · intro st d ev props req it
    cases d <;> cases ev <;> cases props <;> cases req <;> cases it <;>
      simp [encodeSchema, objKeys, keys_ofList, optField, encodePropsField, encodeItemsField,
        OptProps.isSome, OptItems.isSome, JsonObj.keys]

/-- Witness for C10 at a concrete input: the empty object decodes with
`schema_type` unset. -/
theorem claim_C10_type_always_emitted_witness :
    (JSONSchemaDefine.mk Option.none (Option.some "d") Option.none .none Option.none
        .none).schema_type = Option.none :=
  claim_C10_type_always_emitted.2.2.2.1 (.cons "description" (.str "d") .nil) rfl
    (.mk Option.none (Option.some "d") Option.none .none Option.none .none)
    (by rfl)

theorem mem_map_fst_optField {k name : String} {v : Option Json} :
    k ∈ (optField name v).map Prod.fst ↔ (k = name ∧ v.isSome = true) := by
  cases v <;> simp [optField]

/-- C8: For every `ChatCompletionRequest`, encoding omits each optional
field that is unset (the key appears exactly when the field is set, so an
unset field is never present and in particular never null), while `model`
and `messages` are always emitted; an empty `messages` sequence encodes to
an empty array under the `messages` key, and decoding the encoded empty
request yields the empty request back without error. -/
theorem claim_C8_request_optional_fields :
    (∀ r : ChatCompletionRequest,
      "model" ∈ (encodeRequestFields r).map Prod.fst
      ∧ "messages" ∈ (encodeRequestFields r).map Prod.fst
      ∧ (("temperature" ∈ (encodeRequestFields r).map Prod.fst)
          ↔ r.temperature.isSome = true)
      ∧ (("top_p" ∈ (encodeRequestFields r).map Prod.fst) ↔ r.top_p.isSome = true)
      ∧ (("n" ∈ (encodeRequestFields r).map Prod.fst) ↔ r.n.isSome = true)
      ∧ (("response_format" ∈ (encodeRequestFields r).map Prod.fst)
          ↔ r.response_format.isSome = true)
      ∧ (("stream" ∈ (encodeRequestFields r).map Prod.fst) ↔ r.stream.isSome = true)
      ∧ (("stop" ∈ (encodeRequestFields r).map Prod.fst) ↔ r.stop.isSome = true)
      ∧ (("max_tokens" ∈ (encodeRequestFields r).map Prod.fst)
          ↔ r.max_tokens.isSome = true)
      ∧ (("presence_penalty" ∈ (encodeRequestFields r).map Prod.fst)
          ↔ r.presence_penalty.isSome = true)
      ∧ (("frequency_penalty" ∈ (encodeRequestFields r).map Prod.fst)
          ↔ r.frequency_penalty.isSome = true)
      ∧ (("logit_bias" ∈ (encodeRequestFields r).map Prod.fst)
          ↔ r.logit_bias.isSome = true)
      ∧ (("user" ∈ (encodeRequestFields r).map Prod.fst) ↔ r.user.isSome = true)
      ∧ (("seed" ∈ (encodeRequestFields r).map Prod.fst) ↔ r.seed.isSome = true)
      ∧ (("tools" ∈ (encodeRequestFields r).map Prod.fst) ↔ r.tools.isSome = true)
      ∧ (("tool_choice" ∈ (encodeRequestFields r).map Prod.fst)
          ↔ r.tool_choice.isSome = true)
      ∧ (("prettify_tools" ∈ (encodeRequestFields r).map Prod.fst)
          ↔ r.prettify_tools.isSome = true)
      ∧ (("structure_output_decoding_mode" ∈ (encodeRequestFields r).map Prod.fst)
          ↔ r.structure_output_decoding_mode.isSome = true)
      ∧ (("use_raw_output" ∈ (encodeRequestFields r).map Prod.fst)
          ↔ r.use_raw_output.isSome = true)
      ∧ (("include_thinking" ∈ (encodeRequestFields r).map Prod.fst)
          ↔ r.include_thinking.isSome = true)
      ∧ (("empower_metadata" ∈ (encodeRequestFields r).map Prod.fst)
          ↔ r.empower_metadata.isSome = true))
    ∧ (∀ r : ChatCompletionRequest, r.messages = [] →
        JsonObj.lookup "messages" (JsonObj.ofList (encodeRequestFields r))
          = Option.some (.arr .nil))
    ∧ (∀ model : String,
        decodeChatCompletionRequest (encodeChatCompletionRequest
          (ChatCompletionRequest.new model []))
          = .ok (ChatCompletionRequest.new model [])) := by
  refine ⟨?_, ?_, ?_⟩
  · intro r
    refine ⟨?_, ?_, ?_, ?_, ?_, ?_, ?_, ?_, ?_, ?_, ?_, ?_, ?_, ?_, ?_, ?_, ?_, ?_, ?_,
      ?_, ?_⟩ <;>
    · simp only [encodeRequestFields, List.map_cons, List.map_append, List.mem_cons,
        List.mem_append, mem_map_fst_optField, Option.isSome_map]
      simp
  · intro r h
    simp [encodeRequestFields, JsonObj.ofList, JsonObj.lookup, h, JsonList.ofList]
  · intro model
    have henc : encodeChatCompletionRequest (ChatCompletionRequest.new model [])
        = .obj (.cons "model" (.str model) (.cons "messages" (.arr .nil) .nil)) := by
      dsimp only [encodeChatCompletionRequest, encodeRequestFields, ChatCompletionRequest.new,
        Option.map, optField, JsonObj.ofList, List.map, List.nil_append, JsonList.ofList]
    rw [henc]
    simp [decodeChatCompletionRequest, decodeReqString, decodeOptFieldWith, decodeOptString,
      JsonObj.lookup, decodeMessageElems, Bind.bind, Except.bind, ChatCompletionRequest.new]

/-- Witness for C8 at a concrete input: the empty request built by `new`
has its empty `messages` emitted as the empty array. -/
theorem claim_C8_request_optional_fields_witness :
    JsonObj.lookup "messages"
      (JsonObj.ofList (encodeRequestFields (ChatCompletionRequest.new "m" [])))
      = Option.some (.arr .nil) :=
  claim_C8_request_optional_fields.2.1 (ChatCompletionRequest.new "m" []) rfl

end ChatCompletion
